import Mathlib

/-!
Verification of the color-mix variant (`src/packages/preset-uno/src/variants/mix.ts`).

The TypeScript source is shallowly embedded: string-or-number values become
the inductive `SN`, CSS colors become the structure `CSSColorValue`, the
regular expression used by the token matcher is modelled by an explicit
backtracking matcher with the same semantics, and the mutable property-list
rewrite becomes an `Option`-valued map.
-/

/-- A JavaScript `string | number` value, as used for color components,
alpha values and mix weights in the source. -/
inductive SN where
  | str (s : String)
  | num (n : Int)
deriving DecidableEq

/-- JavaScript template-literal stringification of an `SN` value. -/
def SN.toStr : SN → String
  | .str s => s
  | .num n => toString n

/-- The `CSSColorValue` shape from `@unocss/core`: a type tag, a list of
components (each a string or number) and an optional alpha. -/
structure CSSColorValue where
  type : String
  components : List SN
  alpha : Option SN
deriving DecidableEq

/-- `mixComponent(v1, v2, w)` from the source: emits the textual
interpolation expression, with no numeric evaluation. -/
def mixComponent (v1 v2 w : SN) : String :=
  "calc(" ++ v2.toStr ++ " + (" ++ v1.toStr ++ " - " ++ v2.toStr ++ ") * " ++
    w.toStr ++ " / 100)"

/-- Resolves a `string | CSSColorValue` argument the way `mixColor` does:
strings go through the external parser, color objects pass through. -/
def resolveColor (parse : String → Option CSSColorValue) :
    String ⊕ CSSColorValue → Option CSSColorValue
  | Sum.inl s => parse s
  | Sum.inr c => some c

/-- The `['rgb', 'rgba'].includes(color.type)` test from `mixColor`. -/
def rgbFamily (c : CSSColorValue) : Bool :=
  (["rgb", "rgba"]).contains c.type

/-- JavaScript indexing `color.components[x]`: out-of-range indices give
`undefined`, which stringifies to `"undefined"` inside `mixComponent`. -/
def compAt (c : CSSColorValue) (i : Nat) : SN :=
  c.components.getD i (SN.str "undefined")

/-- `mixColor(color1, color2, weight)` from the source: resolves both inputs,
fails unless both are RGB-family, then builds the three interpolated
components and an interpolated alpha (missing alpha defaulting to `1`). -/
def mixColor (parse : String → Option CSSColorValue)
    (color1 color2 : String ⊕ CSSColorValue) (weight : SN) : Option CSSColorValue :=
  match resolveColor parse color1 with
  | none => none
  | some c1 =>
    if rgbFamily c1 then
      match resolveColor parse color2 with
      | none => none
      | some c2 =>
        if rgbFamily c2 then
          some
            { type := "rgb"
              components :=
                [SN.str (mixComponent (compAt c1 0) (compAt c2 0) weight),
                 SN.str (mixComponent (compAt c1 1) (compAt c2 1) weight),
                 SN.str (mixComponent (compAt c1 2) (compAt c2 2) weight)]
              alpha :=
                some (SN.str (mixComponent (c1.alpha.getD (SN.num 1))
                  (c2.alpha.getD (SN.num 1)) weight)) }
        else none
    else none

/-- `tint(color, weight)` from the source: mix with white. -/
def tint (parse : String → Option CSSColorValue)
    (color : String ⊕ CSSColorValue) (weight : SN) : Option CSSColorValue :=
  mixColor parse (Sum.inl "#fff") color weight

/-- `shade(color, weight)` from the source: mix with black. -/
def shade (parse : String → Option CSSColorValue)
    (color : String ⊕ CSSColorValue) (weight : SN) : Option CSSColorValue :=
  mixColor parse (Sum.inl "#000") color weight

/-- Longest leading run of ASCII digits of a character list, as a numeral,
or `none` when the list does not start with a digit. -/
def leadDigits : List Char → Option Nat
  | [] => none
  | c :: cs =>
    if c.isDigit then
      match leadDigits cs with
      | some n =>
        some ((c.toNat - ('0').toNat) * 10 ^ (cs.takeWhile Char.isDigit).length + n)
      | none => some (c.toNat - ('0').toNat)
    else none

/-- Number.parseFloat as used by `shift`, modelled on optional-sign integer
numerals (the only weights this module ever produces: the token matcher
yields 1-3 digit integers with an optional leading minus).  Inputs without a
leading signed digit run parse to `none` (JavaScript `NaN`). -/
def parseFloatInt (s : String) : Option Int :=
  match s.toList with
  | '-' :: rest => (leadDigits rest).map fun n => -(n : Int)
  | l => (leadDigits l).map fun n => (n : Int)

/-- `shift(color, weight)` from the source: parse the weight, return nothing
on `NaN`, shade for positive weights, tint with the negated weight otherwise. -/
def shift (parse : String → Option CSSColorValue)
    (color : String ⊕ CSSColorValue) (weight : SN) : Option CSSColorValue :=
  match parseFloatInt weight.toStr with
  | none => none
  | some num => if 0 < num then shade parse color weight
                else tint parse color (SN.num (-num))

/-- The `fns` record from the source: name-indexed lookup of the three mix
functions; any other name is `undefined`. -/
def fns (parse : String → Option CSSColorValue) (name : String) :
    Option ((String ⊕ CSSColorValue) → SN → Option CSSColorValue) :=
  if name = "tint" then some (tint parse)
  else if name = "shade" then some (shade parse)
  else if name = "shift" then some (shift parse)
  else none

/-- First-alternative-wins choice between two optional results, the
backtracking order of a regex alternation. -/
def orO : Option α → Option α → Option α
  | some x, _ => some x
  | none, b => b

/-- Matching of one separator fragment of the compiled pattern against the
input, returning the number of characters consumed.  The source interpolates
the configured separators into the regular expression without escaping, so a
fragment is interpreted as regex text: `.` is the wildcard and every other
supported character matches itself.  (Fragments containing other regex
metacharacters are outside this model.) -/
def fragMatch : List Char → List Char → Option Nat
  | [], _ => some 0
  | _ :: _, [] => none
  | p :: ps, c :: cs =>
    if p = '.' ∨ p = c then (fragMatch ps cs).map fun n => n + 1 else none

/-- The separator alternation `(?:sep1|sep2|...)` of the compiled pattern:
alternatives are tried left to right; with no configured separators the
joined pattern is `(?:)`, which matches the empty string. -/
def sepAlt (seps : List String) (s : List Char) : Option Nat :=
  match seps with
  | [] => some 0
  | _ => List.findSome? (fun sep => fragMatch sep.toList s) seps

/-- The `\d{1,3}` quantifier followed by the separator alternation: greedy
with backtracking, so three digits are tried first, then two, then one.
Returns the digit run together with the total number of characters consumed
(digits plus separator). -/
def weightCore (seps : List String) : List Char → Option (List Char × Nat)
  | [] => none
  | d1 :: r1 =>
    if d1.isDigit then
      match r1 with
      | [] => (sepAlt seps r1).map fun n => ([d1], 1 + n)
      | d2 :: r2 =>
        if d2.isDigit then
          match r2 with
          | [] =>
            orO ((sepAlt seps r2).map fun n => ([d1, d2], 2 + n))
              ((sepAlt seps (d2 :: r2)).map fun n => ([d1], 1 + n))
          | d3 :: r3 =>
            if d3.isDigit then
              orO ((sepAlt seps r3).map fun n => ([d1, d2, d3], 3 + n))
                (orO ((sepAlt seps (d3 :: r3)).map fun n => ([d1, d2], 2 + n))
                  ((sepAlt seps (d2 :: d3 :: r3)).map fun n => ([d1], 1 + n)))
            else
              orO ((sepAlt seps (d3 :: r3)).map fun n => ([d1, d2], 2 + n))
                ((sepAlt seps (d2 :: d3 :: r3)).map fun n => ([d1], 1 + n))
        else (sepAlt seps (d2 :: r2)).map fun n => ([d1], 1 + n)
    else none

/-- The `-?\d{1,3}` group followed by the separator alternation: the greedy
optional sign is taken when present, with the sign-free reading as the
backtracking alternative. -/
def signedWeight (seps : List String) (s : List Char) : Option (List Char × Nat) :=
  match s with
  | [] => none
  | c :: r =>
    if c = '-' then
      orO ((weightCore seps r).map fun p => ('-' :: p.1, p.2 + 1))
        (weightCore seps (c :: r))
    else weightCore seps (c :: r)

/-- The mode alternation `(tint|shade|shift)`: the three literals are
mutually exclusive, so first-match order needs no backtracking. -/
def modeAlt (s : List Char) : Option (String × List Char) :=
  if s.take 4 = ("tint").toList then some ("tint", s.drop 4)
  else if s.take 5 = ("shade").toList then some ("shade", s.drop 5)
  else if s.take 5 = ("shift").toList then some ("shift", s.drop 5)
  else none

/-- The match-array data the source reads off a successful regex match:
`m[0]` (full matched text), `m[1]` (mode) and `m[2]` (weight text). -/
structure MixMatch where
  m0 : String
  mode : String
  weight : String
deriving DecidableEq

/-- The whole anchored pattern
`^mix-(tint|shade|shift)-(-?\d{1,3})(?:<separators>)` applied to a token,
as `matcher.match(re)` does in the source. -/
def matchMix (seps : List String) (token : String) : Option MixMatch :=
  if token.toList.take 4 = ("mix-").toList then
    match modeAlt (token.toList.drop 4) with
    | some (mode, rest) =>
      match rest with
      | [] => none
      | c :: rest2 =>
        if c = '-' then
          match signedWeight seps rest2 with
          | some (w, n) =>
            some { m0 := String.mk (token.toList.take (4 + mode.length + 1 + n))
                   mode := mode
                   weight := String.mk w }
          | none => none
        else none
    | none => none
  else none

/-- JavaScript `matcher.slice(n)`, used to build the returned remainder. -/
def sliceFrom (s : String) (n : Nat) : String :=
  String.mk (s.toList.drop n)

/-- The match entry point of the variant object: on success it returns the
remainder (`matcher.slice(m[0].length)`) together with the captured mode and
weight that the body closure uses. -/
def variantMatch (seps : List String) (token : String) :
    Option (String × String × String) :=
  (matchMix seps token).map fun r =>
    (sliceFrom token r.m0.length, r.mode, r.weight)

/-- The lazily compiled pattern of `variantColorMix`: `let re` starts
uninitialized, the first call compiles it from that call's separator
configuration (`if (!re) re = new RegExp(...)`), and every later call reuses
whatever is cached.  The state is modelled by the separator list the pattern
was compiled from. -/
def matchStateful (state : Option (List String)) (token : String)
    (seps : List String) : Option (List String) × Option MixMatch :=
  let re := state.getD seps
  (some re, matchMix re token)

/-- JavaScript truthiness of a `string | number` value: the empty string and
the number `0` are falsy. -/
def snTruthy : SN → Bool
  | .str s => !(s == "")
  | .num n => !(n == 0)

/-- JavaScript falsiness of an optional value: absent (`undefined`), the
empty string and the number `0`, the values the `if (v[1])` guard skips. -/
def snFalsy : Option SN → Bool
  | none => true
  | some sn => !(snTruthy sn)

/-- One iteration of the `body.forEach` rewrite from the source: skip falsy
values, otherwise parse, look up `fns[m[1]]`, mix, and replace the value
with the serialized result when everything succeeds.  A `none` result models
the TypeError a JavaScript undefined-function lookup would throw. -/
def rewriteEntry (parse : String → Option CSSColorValue)
    (serialize : CSSColorValue → String) (mode weight : String)
    (v : String × Option SN) : Option (String × Option SN) :=
  match v.2 with
  | none => some v
  | some sn =>
    if snTruthy sn then
      match parse sn.toStr with
      | none => some v
      | some color =>
        match fns parse mode with
        | none => none
        | some fn =>
          match fn (Sum.inr color) (SN.str weight) with
          | none => some v
          | some mixed => some (v.1, some (SN.str (serialize mixed)))
    else some v

/-- Option-valued map: applies `f` to every element in order, aborting on
the first failure (a thrown exception stops `forEach`). -/
def mapOpt (f : α → Option β) : List α → Option (List β)
  | [] => some []
  | x :: xs =>
    match f x with
    | none => none
    | some y => (mapOpt f xs).map fun ys => y :: ys

/-- The `body` closure returned by a successful match: rewrites every
property entry in place and returns the list. -/
def bodyRewrite (parse : String → Option CSSColorValue)
    (serialize : CSSColorValue → String) (mode weight : String)
    (body : List (String × Option SN)) : Option (List (String × Option SN)) :=
  mapOpt (rewriteEntry parse serialize mode weight) body

/-- Value of a hexadecimal digit character. -/
def hexVal (c : Char) : Option Nat :=
  if '0' ≤ c ∧ c ≤ '9' then some (c.toNat - ('0').toNat)
  else if 'a' ≤ c ∧ c ≤ 'f' then some (c.toNat - ('a').toNat + 10)
  else if 'A' ≤ c ∧ c ≤ 'F' then some (c.toNat - ('A').toNat + 10)
  else none

/-- Modelled from the spec: the external color parser `parseCssColor` of
`@unocss/rule-utils` is not under src/; per the spec it maps color text to a
normalized RGB-family color with three components or rejects it with `none`.
This model covers 3-digit and 6-digit hex notation, which includes the
`#fff` and `#000` literals `tint` and `shade` feed through it. -/
def parseCssColorM (s : String) : Option CSSColorValue :=
  match s.toList with
  | ['#', a, b, c] =>
    match hexVal a, hexVal b, hexVal c with
    | some x, some y, some z =>
      some { type := "rgb"
             components := [SN.num (17 * x), SN.num (17 * y), SN.num (17 * z)]
             alpha := none }
    | _, _, _ => none
  | ['#', a, b, c, d, e, f] =>
    match hexVal a, hexVal b, hexVal c, hexVal d, hexVal e, hexVal f with
    | some x1, some x2, some y1, some y2, some z1, some z2 =>
      some { type := "rgb"
             components := [SN.num (16 * x1 + x2), SN.num (16 * y1 + y2),
               SN.num (16 * z1 + z2)]
             alpha := none }
    | _, _, _, _, _, _ => none
  | _ => none

/-- Modelled from the spec: the external serializer `colorToString` of
`@unocss/rule-utils` is not under src/; per the spec it renders a normalized
color back into color-function syntax, accepting expression components. -/
def colorToStringM (c : CSSColorValue) : String :=
  match c.alpha with
  | some a =>
    c.type ++ "a(" ++ String.intercalate "," (c.components.map SN.toStr) ++ "," ++
      a.toStr ++ ")"
  | none => c.type ++ "(" ++ String.intercalate "," (c.components.map SN.toStr) ++ ")"

/-- Modelled from the spec: the render-time numeric evaluation, by the
consumer of the generated style value, of the expression
`calc(v2 + (v1 - v2) * w / 100)` that `mixComponent` emits as text. -/
def mixEval (v1 v2 w : ℚ) : ℚ :=
  v2 + (v1 - v2) * w / 100

/-- The total per-entry rewrite step: what one `forEach` iteration does when
the mode lookup is defined (`fn` is the looked-up mix function). -/
def entryStep (parse : String → Option CSSColorValue)
    (serialize : CSSColorValue → String)
    (fn : (String ⊕ CSSColorValue) → SN → Option CSSColorValue) (weight : String)
    (v : String × Option SN) : String × Option SN :=
  match v.2 with
  | none => v
  | some sn =>
    if snTruthy sn then
      match parse sn.toStr with
      | none => v
      | some color =>
        match fn (Sum.inr color) (SN.str weight) with
        | none => v
        | some mixed => (v.1, some (SN.str (serialize mixed)))
    else v

/-- A parser accepting the empty string and the white literal, both as
opaque white; used to separate value-presence from value-truthiness. -/
def cexParse (s : String) : Option CSSColorValue :=
  if s = "" ∨ s = "#fff" then
    some { type := "rgb", components := [SN.num 255, SN.num 255, SN.num 255],
           alpha := none }
  else none

/-- The mode alternatives admitted by the pattern's mode group. -/
def ValidMode (m : String) : Prop :=
  m = "tint" ∨ m = "shade" ∨ m = "shift"

/-- The weight texts admitted by the pattern's weight group `-?\d{1,3}`:
an optional leading minus sign followed by one to three ASCII digits. -/
def ValidWeightChars (w : List Char) : Prop :=
  ∃ ds : List Char, (w = ds ∨ w = '-' :: ds) ∧ 1 ≤ ds.length ∧ ds.length ≤ 3 ∧
    ∀ c ∈ ds, c.isDigit = true

theorem orO_eq_some {a b : Option α} {x : α} (h : orO a b = some x) :
    a = some x ∨ b = some x := by
  cases a with
  | some y => exact Or.inl h
  | none => exact Or.inr h

theorem orO_isSome_left {a b : Option α} (h : a.isSome = true) :
    (orO a b).isSome = true := by
  cases a with
  | some y => rfl
  | none => simp at h

theorem orO_isSome_right {a b : Option α} (h : b.isSome = true) :
    (orO a b).isSome = true := by
  cases a with
  | some y => rfl
  | none => exact h

theorem isSome_mapO {o : Option α} {f : α → β} (h : o.isSome = true) :
    (o.map f).isSome = true := by
  cases o with
  | some y => rfl
  | none => simp at h

theorem fragMatch_length {p s : List Char} {n : Nat} (h : fragMatch p s = some n) :
    n = p.length ∧ n ≤ s.length := by
  induction p generalizing s n with
  | nil =>
    simp only [fragMatch, Option.some.injEq] at h
    subst h
    simp
  | cons c cs ih =>
    cases s with
    | nil => simp [fragMatch] at h
    | cons x xs =>
      simp only [fragMatch] at h
      split at h
      · rcases Option.map_eq_some'.mp h with ⟨m, hm, hn⟩
        obtain ⟨h1, h2⟩ := ih hm
        subst hn
        simp only [List.length_cons]
        omega
      · exact absurd h (by simp)

theorem fragMatch_plain {p s : List Char} {n : Nat}
    (hp : ∀ c ∈ p, c ≠ '.') (h : fragMatch p s = some n) :
    s.take n = p := by
  induction p generalizing s n with
  | nil =>
    simp only [fragMatch, Option.some.injEq] at h
    subst h
    simp
  | cons c cs ih =>
    cases s with
    | nil => simp [fragMatch] at h
    | cons x xs =>
      simp only [fragMatch] at h
      split at h
      case isTrue hcond =>
        rcases Option.map_eq_some'.mp h with ⟨m, hm, hn⟩
        have hcx : c = x := by
          rcases hcond with hdot | hcx
          · exact absurd hdot (hp c (by simp))
          · exact hcx
        subst hn
        subst hcx
        have := ih (fun d hd => hp d (by simp [hd])) hm
        simp [List.take_succ_cons, this]
      case isFalse => exact absurd h (by simp)

theorem fragMatch_self (p t : List Char) : fragMatch p (p ++ t) = some p.length := by
  induction p with
  | nil => rfl
  | cons c cs ih =>
    simp [List.cons_append, fragMatch, ih]

theorem sepAlt_bound {seps : List String} {s : List Char} {k : Nat}
    (h : sepAlt seps s = some k) : k ≤ s.length := by
  cases seps with
  | nil =>
    simp only [sepAlt, Option.some.injEq] at h
    omega
  | cons a as =>
    simp only [sepAlt] at h
    rcases List.exists_of_findSome?_eq_some h with ⟨sep, _, hsep⟩
    exact (fragMatch_length hsep).2

theorem sepAlt_mem {seps : List String} {s : List Char} {k : Nat}
    (hne : seps ≠ []) (h : sepAlt seps s = some k) :
    ∃ sep ∈ seps, fragMatch sep.toList s = some k := by
  cases seps with
  | nil => exact absurd rfl hne
  | cons a as =>
    simp only [sepAlt] at h
    exact List.exists_of_findSome?_eq_some h

theorem mapPair_eq_some {seps : List String} {t ds w : List Char} {m n : Nat}
    (h : ((sepAlt seps t).map fun k => (ds, m + k)) = some (w, n)) :
    w = ds ∧ ∃ k, sepAlt seps t = some k ∧ n = m + k := by
  rcases Option.map_eq_some'.mp h with ⟨k, hk, hpair⟩
  obtain ⟨h1, h2⟩ := Prod.mk.injEq .. ▸ hpair
  exact ⟨h1.symm, k, hk, h2.symm⟩

theorem weightCore_sound {seps : List String} {s w : List Char} {n : Nat}
    (h : weightCore seps s = some (w, n)) :
    ∃ suf k, s = w ++ suf ∧ 1 ≤ w.length ∧ w.length ≤ 3 ∧
      (∀ c ∈ w, c.isDigit = true) ∧ sepAlt seps suf = some k ∧ n = w.length + k := by
  rcases s with _ | ⟨d1, _ | ⟨d2, _ | ⟨d3, r3⟩⟩⟩
  · simp [weightCore] at h
  · simp only [weightCore] at h
    split at h
    case isTrue hd1 =>
      obtain ⟨hw, k, hk, hn⟩ := mapPair_eq_some h
      subst hw
      exact ⟨[], k, rfl, by simp, by simp, by simpa using hd1, hk, hn⟩
    case isFalse => simp at h
  · simp only [weightCore] at h
    split at h
    case isTrue hd1 =>
      split at h
      case isTrue hd2 =>
        rcases orO_eq_some h with h2 | h1
        · obtain ⟨hw, k, hk, hn⟩ := mapPair_eq_some h2
          subst hw
          exact ⟨[], k, rfl, by simp, by simp, by simp [hd1, hd2], hk, hn⟩
        · obtain ⟨hw, k, hk, hn⟩ := mapPair_eq_some h1
          subst hw
          exact ⟨[d2], k, rfl, by simp, by simp, by simpa using hd1, hk, hn⟩
      case isFalse hd2 =>
        obtain ⟨hw, k, hk, hn⟩ := mapPair_eq_some h
        subst hw
        exact ⟨[d2], k, rfl, by simp, by simp, by simpa using hd1, hk, hn⟩
    case isFalse => simp at h
  · simp only [weightCore] at h
    split at h
    case isTrue hd1 =>
      split at h
      case isTrue hd2 =>
        split at h
        case isTrue hd3 =>
          rcases orO_eq_some h with h3 | h23
          · obtain ⟨hw, k, hk, hn⟩ := mapPair_eq_some h3
            subst hw
            exact ⟨r3, k, rfl, by simp, by simp, by simp [hd1, hd2, hd3], hk, hn⟩
          · rcases orO_eq_some h23 with h2 | h1
            · obtain ⟨hw, k, hk, hn⟩ := mapPair_eq_some h2
              subst hw
              exact ⟨d3 :: r3, k, rfl, by simp, by simp, by simp [hd1, hd2], hk, hn⟩
            · obtain ⟨hw, k, hk, hn⟩ := mapPair_eq_some h1
              subst hw
              exact ⟨d2 :: d3 :: r3, k, rfl, by simp, by simp, by simpa using hd1, hk, hn⟩
        case isFalse hd3 =>
          rcases orO_eq_some h with h2 | h1
          · obtain ⟨hw, k, hk, hn⟩ := mapPair_eq_some h2
            subst hw
            exact ⟨d3 :: r3, k, rfl, by simp, by simp, by simp [hd1, hd2], hk, hn⟩
          · obtain ⟨hw, k, hk, hn⟩ := mapPair_eq_some h1
            subst hw
            exact ⟨d2 :: d3 :: r3, k, rfl, by simp, by simp, by simpa using hd1, hk, hn⟩
      case isFalse hd2 =>
        obtain ⟨hw, k, hk, hn⟩ := mapPair_eq_some h
        subst hw
        exact ⟨d2 :: d3 :: r3, k, rfl, by simp, by simp, by simpa using hd1, hk, hn⟩
    case isFalse => simp at h

theorem isSome_orO (a b : Option α) : (orO a b).isSome = (a.isSome || b.isSome) := by
  cases a <;> simp [orO]

theorem weightCore_complete {seps : List String} {ds rest : List Char}
    (h1 : 1 ≤ ds.length) (h3 : ds.length ≤ 3)
    (hd : ∀ c ∈ ds, c.isDigit = true) (hs : (sepAlt seps rest).isSome = true) :
    (weightCore seps (ds ++ rest)).isSome = true := by
  rcases ds with _ | ⟨d1, _ | ⟨d2, _ | ⟨d3, _ | ⟨d4, tl⟩⟩⟩⟩
  · simp at h1
  · have hd1 : d1.isDigit = true := hd d1 (by simp)
    cases rest with
    | nil => simp [weightCore, hd1, isSome_orO, Option.isSome_map', hs]
    | cons c r =>
      by_cases hc : c.isDigit = true
      · cases r with
        | nil => simp [weightCore, hd1, hc, isSome_orO, Option.isSome_map', hs]
        | cons c2 r2 =>
          by_cases hc2 : c2.isDigit = true
          · simp [weightCore, hd1, hc, hc2, isSome_orO, Option.isSome_map', hs]
          · simp [weightCore, hd1, hc, hc2, isSome_orO, Option.isSome_map', hs]
      · simp [weightCore, hd1, hc, isSome_orO, Option.isSome_map', hs]
  · have hd1 : d1.isDigit = true := hd d1 (by simp)
    have hd2 : d2.isDigit = true := hd d2 (by simp)
    cases rest with
    | nil => simp [weightCore, hd1, hd2, isSome_orO, Option.isSome_map', hs]
    | cons c r =>
      by_cases hc : c.isDigit = true
      · simp [weightCore, hd1, hd2, hc, isSome_orO, Option.isSome_map', hs]
      · simp [weightCore, hd1, hd2, hc, isSome_orO, Option.isSome_map', hs]
  · have hd1 : d1.isDigit = true := hd d1 (by simp)
    have hd2 : d2.isDigit = true := hd d2 (by simp)
    have hd3 : d3.isDigit = true := hd d3 (by simp)
    simp [weightCore, hd1, hd2, hd3, isSome_orO, Option.isSome_map', hs]
  · simp at h3

theorem digit_ne_dash {c : Char} (h : c.isDigit = true) : ¬ c = '-' := by
  intro he
  subst he
  simp [Char.isDigit] at h

theorem signedWeight_sound {seps : List String} {s w : List Char} {n : Nat}
    (h : signedWeight seps s = some (w, n)) :
    ∃ ds suf k, (w = ds ∨ w = '-' :: ds) ∧ s = w ++ suf ∧ 1 ≤ ds.length ∧
      ds.length ≤ 3 ∧ (∀ c ∈ ds, c.isDigit = true) ∧ sepAlt seps suf = some k ∧
      n = w.length + k := by
  cases s with
  | nil => simp [signedWeight] at h
  | cons c r =>
    simp only [signedWeight] at h
    split at h
    case isTrue hc =>
      subst hc
      rcases orO_eq_some h with hsig | hplain
      · rcases Option.map_eq_some'.mp hsig with ⟨⟨ds, m⟩, hwc, hpair⟩
        obtain ⟨suf, k, hsplit, hl1, hl3, hdig, hsep, hm⟩ := weightCore_sound hwc
        obtain ⟨hw, hn⟩ := Prod.mk.injEq .. ▸ hpair
        subst hw
        refine ⟨ds, suf, k, Or.inr rfl, by simp [hsplit], hl1, hl3, hdig, hsep, ?_⟩
        simp only [List.length_cons]
        omega
      · obtain ⟨suf, k, hsplit, hl1, hl3, hdig, hsep, hm⟩ := weightCore_sound hplain
        exact ⟨w, suf, k, Or.inl rfl, hsplit, hl1, hl3, hdig, hsep, hm⟩
    case isFalse hc =>
      obtain ⟨suf, k, hsplit, hl1, hl3, hdig, hsep, hm⟩ := weightCore_sound h
      exact ⟨w, suf, k, Or.inl rfl, hsplit, hl1, hl3, hdig, hsep, hm⟩

theorem signedWeight_complete {seps : List String} {w ds rest : List Char}
    (hw : w = ds ∨ w = '-' :: ds) (h1 : 1 ≤ ds.length) (h3 : ds.length ≤ 3)
    (hd : ∀ c ∈ ds, c.isDigit = true) (hs : (sepAlt seps rest).isSome = true) :
    (signedWeight seps (w ++ rest)).isSome = true := by
  rcases hw with hw | hw
  · rw [hw]
    cases ds with
    | nil => simp at h1
    | cons d1 tl =>
      have hd1 : d1.isDigit = true := hd d1 (by simp)
      simp only [List.cons_append, signedWeight, if_neg (digit_ne_dash hd1)]
      exact weightCore_complete h1 h3 hd hs
  · rw [hw]
    simp only [List.cons_append, signedWeight, if_pos rfl]
    exact orO_isSome_left (isSome_mapO (weightCore_complete h1 h3 hd hs))

theorem modeAlt_sound {t : List Char} {mode : String} {rest : List Char}
    (h : modeAlt t = some (mode, rest)) :
    (mode = "tint" ∨ mode = "shade" ∨ mode = "shift") ∧ t = mode.toList ++ rest := by
  simp only [modeAlt] at h
  split at h
  case isTrue h4 =>
    simp only [Option.some.injEq, Prod.mk.injEq] at h
    obtain ⟨hm, hr⟩ := h
    subst hm
    subst hr
    exact ⟨Or.inl rfl, by rw [← h4]; exact (List.take_append_drop 4 t).symm⟩
  case isFalse =>
    split at h
    case isTrue h5 =>
      simp only [Option.some.injEq, Prod.mk.injEq] at h
      obtain ⟨hm, hr⟩ := h
      subst hm
      subst hr
      exact ⟨Or.inr (Or.inl rfl), by rw [← h5]; exact (List.take_append_drop 5 t).symm⟩
    case isFalse =>
      split at h
      case isTrue h5 =>
        simp only [Option.some.injEq, Prod.mk.injEq] at h
        obtain ⟨hm, hr⟩ := h
        subst hm
        subst hr
        exact ⟨Or.inr (Or.inr rfl), by rw [← h5]; exact (List.take_append_drop 5 t).symm⟩
      case isFalse => simp at h

theorem modeAlt_complete {mode : String} {r : List Char}
    (hm : mode = "tint" ∨ mode = "shade" ∨ mode = "shift") :
    modeAlt (mode.toList ++ r) = some (mode, r) := by
  rcases hm with rfl | rfl | rfl <;> rfl

theorem matchMix_sound {seps : List String} {token : String} {r : MixMatch}
    (h : matchMix seps token = some r) :
    (r.mode = "tint" ∨ r.mode = "shade" ∨ r.mode = "shift") ∧
    (∃ ds, (r.weight.toList = ds ∨ r.weight.toList = '-' :: ds) ∧
      1 ≤ ds.length ∧ ds.length ≤ 3 ∧ ∀ c ∈ ds, c.isDigit = true) ∧
    ∃ suf k, token.toList = ("mix-").toList ++ (r.mode.toList ++ '-' ::
        (r.weight.toList ++ suf)) ∧
      sepAlt seps suf = some k ∧ k ≤ suf.length ∧
      r.m0.toList = ("mix-").toList ++ (r.mode.toList ++ '-' ::
        (r.weight.toList ++ suf.take k)) ∧
      r.m0.length = 4 + r.mode.length + 1 + (r.weight.length + k) ∧
      sliceFrom token r.m0.length = String.mk (suf.drop k) := by
  simp only [matchMix] at h
  split at h
  case isFalse => simp at h
  case isTrue hmix =>
    split at h
    case h_2 => simp at h
    case h_1 mode rest hma =>
      obtain ⟨hmode, hdecomp⟩ := modeAlt_sound hma
      split at h
      case h_1 => simp at h
      case h_2 =>
        rename_i c rest2
        split at h
        case isFalse => simp at h
        case isTrue hc =>
          subst hc
          split at h
          case h_2 => simp at h
          case h_1 w n hsw =>
            simp only [Option.some.injEq] at h
            subst h
            obtain ⟨ds, suf, k, hwds, hsplit, hl1, hl3, hdig, hsep, hn⟩ :=
              signedWeight_sound hsw
            have hkb : k ≤ suf.length := sepAlt_bound hsep
            have htok : token.toList =
                ("mix-").toList ++ (mode.toList ++ '-' :: (w ++ suf)) := by
              conv_lhs => rw [← List.take_append_drop 4 token.toList]
              rw [hmix, hdecomp, hsplit]
            have eT : 4 + mode.length + 1 + n =
                ("mix-").toList.length + (mode.toList.length + (1 + (w.length + k))) := by
              have e4 : ("mix-").toList.length = 4 := rfl
              have eB : mode.toList.length = mode.length := rfl
              rw [e4, eB]
              omega
            have hm0 : token.toList.take (4 + mode.length + 1 + n) =
                ("mix-").toList ++ (mode.toList ++ '-' :: (w ++ suf.take k)) := by
              rw [htok, eT, List.take_append, List.take_append,
                Nat.add_comm 1 (w.length + k), List.take_succ_cons, List.take_append]
            have hdrop : token.toList.drop (4 + mode.length + 1 + n) = suf.drop k := by
              rw [htok, eT, List.drop_append, List.drop_append,
                Nat.add_comm 1 (w.length + k), List.drop_succ_cons, List.drop_append]
            have hTlen : (token.toList.take (4 + mode.length + 1 + n)).length =
                4 + mode.length + 1 + n := by
              rw [hm0]
              simp only [List.length_append, List.length_cons, List.length_take]
              have e4 : ("mix-").toList.length = 4 := rfl
              have eB : mode.toList.length = mode.length := rfl
              rw [e4, eB]
              omega
            refine ⟨hmode, ⟨ds, hwds, hl1, hl3, hdig⟩, suf, k, htok, hsep, hkb,
              hm0, ?_, ?_⟩
            · show (token.toList.take (4 + mode.length + 1 + n)).length =
                4 + mode.length + 1 + (w.length + k)
              rw [hTlen]
              omega
            · show String.mk ((token.toList).drop
                (String.mk (token.toList.take (4 + mode.length + 1 + n))).length) = _
              have hms : (String.mk (token.toList.take (4 + mode.length + 1 + n))).length =
                  4 + mode.length + 1 + n := hTlen
              rw [hms, hdrop]

theorem matchMix_complete {seps : List String} {token : String} {mode : String}
    {w rest : List Char} {ds : List Char}
    (hm : mode = "tint" ∨ mode = "shade" ∨ mode = "shift")
    (hw : w = ds ∨ w = '-' :: ds) (h1 : 1 ≤ ds.length) (h3 : ds.length ≤ 3)
    (hd : ∀ c ∈ ds, c.isDigit = true)
    (ht : token.toList = ("mix-").toList ++ (mode.toList ++ '-' :: (w ++ rest)))
    (hs : (sepAlt seps rest).isSome = true) :
    (matchMix seps token).isSome = true := by
  have htake : token.toList.take 4 = ("mix-").toList := by
    rw [ht]
    have e4 : (4 : Nat) = ("mix-").toList.length + 0 := rfl
    rw [e4, List.take_append]
    simp
  have hdrop : token.toList.drop 4 = mode.toList ++ '-' :: (w ++ rest) := by
    rw [ht]
    have e4 : (4 : Nat) = ("mix-").toList.length + 0 := rfl
    rw [e4, List.drop_append]
    simp
  have hmode : modeAlt (token.toList.drop 4) = some (mode, '-' :: (w ++ rest)) := by
    rw [hdrop]
    exact modeAlt_complete hm
  have hsw : (signedWeight seps (w ++ rest)).isSome = true :=
    signedWeight_complete hw h1 h3 hd hs
  simp only [matchMix, htake, if_pos rfl, hmode]
  rcases hv : signedWeight seps (w ++ rest) with _ | ⟨wv, nv⟩
  · rw [hv] at hsw
    simp at hsw
  · simp [hv]

theorem fns_of_valid (parse : String → Option CSSColorValue) {mode : String}
    (hm : mode = "tint" ∨ mode = "shade" ∨ mode = "shift") :
    (fns parse mode).isSome = true := by
  rcases hm with rfl | rfl | rfl <;> rfl

theorem rewriteEntry_of_fn {parse : String → Option CSSColorValue}
    {serialize : CSSColorValue → String} {mode weight : String}
    {fn : (String ⊕ CSSColorValue) → SN → Option CSSColorValue}
    (hf : fns parse mode = some fn) (v : String × Option SN) :
    rewriteEntry parse serialize mode weight v =
      some (entryStep parse serialize fn weight v) := by
  rcases v with ⟨name, _ | sn⟩
  · rfl
  · simp only [rewriteEntry, entryStep]
    split
    · split
      · rfl
      · simp only [hf]
        split
        · rfl
        · rfl
    · rfl

theorem mapOpt_total {f : α → Option β} {g : α → β}
    (hf : ∀ a, f a = some (g a)) (l : List α) : mapOpt f l = some (l.map g) := by
  induction l with
  | nil => rfl
  | cons x xs ih => simp [mapOpt, hf x, ih]

theorem bodyRewrite_of_fn {parse : String → Option CSSColorValue}
    {serialize : CSSColorValue → String} {mode weight : String}
    {fn : (String ⊕ CSSColorValue) → SN → Option CSSColorValue}
    (hf : fns parse mode = some fn) (body : List (String × Option SN)) :
    bodyRewrite parse serialize mode weight body =
      some (body.map (entryStep parse serialize fn weight)) :=
  mapOpt_total (rewriteEntry_of_fn hf) body

theorem entryStep_fst (parse : String → Option CSSColorValue)
    (serialize : CSSColorValue → String)
    (fn : (String ⊕ CSSColorValue) → SN → Option CSSColorValue) (weight : String)
    (v : String × Option SN) :
    (entryStep parse serialize fn weight v).1 = v.1 := by
  rcases v with ⟨name, _ | sn⟩
  · rfl
  · simp only [entryStep]
    split
    · split
      · rfl
      · split
        · rfl
        · rfl
    · rfl

theorem mixColor_some {parse : String → Option CSSColorValue}
    {c1 c2 : String ⊕ CSSColorValue} {w : SN} {col1 col2 : CSSColorValue}
    (h1 : resolveColor parse c1 = some col1) (h2 : resolveColor parse c2 = some col2)
    (hr1 : rgbFamily col1 = true) (hr2 : rgbFamily col2 = true) :
    mixColor parse c1 c2 w = some
      { type := "rgb"
        components :=
          [SN.str (mixComponent (compAt col1 0) (compAt col2 0) w),
           SN.str (mixComponent (compAt col1 1) (compAt col2 1) w),
           SN.str (mixComponent (compAt col1 2) (compAt col2 2) w)]
        alpha := some (SN.str (mixComponent (col1.alpha.getD (SN.num 1))
          (col2.alpha.getD (SN.num 1)) w)) } := by
  simp [mixColor, h1, h2, hr1, hr2]

theorem mixColor_isSome_iff {parse : String → Option CSSColorValue}
    {c1 c2 : String ⊕ CSSColorValue} {w : SN} :
    (mixColor parse c1 c2 w).isSome = true ↔
      (∃ col1, resolveColor parse c1 = some col1 ∧ rgbFamily col1 = true) ∧
      (∃ col2, resolveColor parse c2 = some col2 ∧ rgbFamily col2 = true) := by
  unfold mixColor
  rcases h1 : resolveColor parse c1 with _ | col1
  · simp [h1]
  · rcases hr1 : rgbFamily col1 with _ | _
    · simp [h1, hr1]
    · rcases h2 : resolveColor parse c2 with _ | col2
      · simp [h1, hr1, h2]
      · rcases hr2 : rgbFamily col2 with _ | _
        · simp [h1, hr1, h2, hr2]
        · simp [h1, hr1, h2, hr2]

/-- C1: for all component values and weights, `mixComponent(v1, v2, w)`
returns exactly the text `calc(v2 + (v1 - v2) * w / 100)` with the three
arguments interpolated verbatim; no numeric evaluation is performed, as the
constant-input instance shows by staying symbolic. -/
theorem C1_mixComponent_verbatim (v1 v2 w : SN) :
    mixComponent v1 v2 w =
      "calc(" ++ v2.toStr ++ " + (" ++ v1.toStr ++ " - " ++ v2.toStr ++ ") * " ++
        w.toStr ++ " / 100)" ∧
    mixComponent (SN.num 10) (SN.num 20) (SN.num 50) =
      "calc(20 + (10 - 20) * 50 / 100)" :=
  ⟨rfl, by decide⟩

/-- C2: `mixColor` succeeds exactly when both inputs resolve to a color of
type `rgb` or `rgba`; on success the result is tagged exactly `rgb`, has
exactly three components with entry `i` equal to
`mixComponent(color1.component[i], color2.component[i], w)`, and always
carries an explicit alpha built with missing alphas defaulted to `1`. -/
theorem C2_mixColor_rgb_guard (parse : String → Option CSSColorValue)
    (c1 c2 : String ⊕ CSSColorValue) (w : SN) :
    ((mixColor parse c1 c2 w).isSome = true ↔
      (∃ col1, resolveColor parse c1 = some col1 ∧ rgbFamily col1 = true) ∧
      (∃ col2, resolveColor parse c2 = some col2 ∧ rgbFamily col2 = true)) ∧
    (∀ col1 col2, resolveColor parse c1 = some col1 →
      resolveColor parse c2 = some col2 → rgbFamily col1 = true →
      rgbFamily col2 = true →
      mixColor parse c1 c2 w = some
        { type := "rgb"
          components :=
            [SN.str (mixComponent (compAt col1 0) (compAt col2 0) w),
             SN.str (mixComponent (compAt col1 1) (compAt col2 1) w),
             SN.str (mixComponent (compAt col1 2) (compAt col2 2) w)]
          alpha := some (SN.str (mixComponent (col1.alpha.getD (SN.num 1))
            (col2.alpha.getD (SN.num 1)) w)) }) :=
  ⟨mixColor_isSome_iff, fun _ _ h1 h2 hr1 hr2 => mixColor_some h1 h2 hr1 hr2⟩

/-- Witness for C2: the guard and success shape at the hex parser with
concrete colors. -/
theorem C2_mixColor_rgb_guard_witness :
    mixColor parseCssColorM (Sum.inl "#336699") (Sum.inl "#fff") (SN.str "30") =
      some { type := "rgb"
             components :=
               [SN.str "calc(255 + (51 - 255) * 30 / 100)",
                SN.str "calc(255 + (102 - 255) * 30 / 100)",
                SN.str "calc(255 + (153 - 255) * 30 / 100)"]
             alpha := some (SN.str "calc(1 + (1 - 1) * 30 / 100)") } :=
  (C2_mixColor_rgb_guard parseCssColorM (Sum.inl "#336699") (Sum.inl "#fff")
      (SN.str "30")).2
    { type := "rgb", components := [SN.num 51, SN.num 102, SN.num 153], alpha := none }
    { type := "rgb", components := [SN.num 255, SN.num 255, SN.num 255], alpha := none }
    (by decide) (by decide) (by decide) (by decide)

/-- C4: `shift` parses the weight as a number; a NaN gives no result, a
positive weight delegates to `shade` on the same weight, a negative weight
delegates to `tint` on the negated (positive) magnitude, and weight zero
takes the tint branch with magnitude zero; in particular
`shift(C, "30") = shade(C, "30")` and `shift(C, "-30") = tint(C, 30)`. -/
theorem C4_shift_sign_split (parse : String → Option CSSColorValue)
    (color : String ⊕ CSSColorValue) (w : SN) :
    (parseFloatInt w.toStr = none → shift parse color w = none) ∧
    (∀ n : Int, parseFloatInt w.toStr = some n → 0 < n →
      shift parse color w = shade parse color w) ∧
    (∀ n : Int, parseFloatInt w.toStr = some n → n < 0 →
      shift parse color w = tint parse color (SN.num (-n))) ∧
    (parseFloatInt w.toStr = some 0 →
      shift parse color w = tint parse color (SN.num 0)) ∧
    shift parse color (SN.str "30") = shade parse color (SN.str "30") ∧
    shift parse color (SN.str "-30") = tint parse color (SN.num 30) := by
  refine ⟨?_, ?_, ?_, ?_, ?_, ?_⟩
  · intro h
    simp [shift, h]
  · intro n h hpos
    simp [shift, h, hpos]
  · intro n h hneg
    have hnp : ¬ 0 < n := by omega
    simp [shift, h, hnp]
  · intro h
    simp [shift, h]
  · have h : parseFloatInt (SN.str "30").toStr = some 30 := by decide
    simp [shift, h]
  · have h : parseFloatInt (SN.str "-30").toStr = some (-30) := by decide
    simp [shift, h]

/-- Witness for C4: the negative branch at a concrete color and weight. -/
theorem C4_shift_sign_split_witness :
    shift cexParse (Sum.inl "#fff") (SN.str "-7") =
      tint cexParse (Sum.inl "#fff") (SN.num 7) := by
  have h := (C4_shift_sign_split cexParse (Sum.inl "#fff") (SN.str "-7")).2.2.1 (-7)
    (by decide) (by decide)
  simpa using h

theorem tint_shape_M (w : SN) (C : CSSColorValue) (hC : rgbFamily C = true) :
    tint parseCssColorM (Sum.inr C) w = some
      { type := "rgb"
        components := [SN.str (mixComponent (SN.num 255) (compAt C 0) w),
          SN.str (mixComponent (SN.num 255) (compAt C 1) w),
          SN.str (mixComponent (SN.num 255) (compAt C 2) w)]
        alpha := some (SN.str (mixComponent (SN.num 1)
          (C.alpha.getD (SN.num 1)) w)) } := by
  have h1 : resolveColor parseCssColorM (Sum.inl "#fff") =
      some { type := "rgb", components := [SN.num 255, SN.num 255, SN.num 255],
             alpha := none } := by decide
  have hw : rgbFamily ⟨"rgb", [SN.num 255, SN.num 255, SN.num 255], none⟩ = true := by
    decide
  have h2 : resolveColor parseCssColorM (Sum.inr C) = some C := rfl
  unfold tint
  rw [mixColor_some h1 h2 hw hC]
  simp [compAt]

theorem shade_shape_M (w : SN) (C : CSSColorValue) (hC : rgbFamily C = true) :
    shade parseCssColorM (Sum.inr C) w = some
      { type := "rgb"
        components := [SN.str (mixComponent (SN.num 0) (compAt C 0) w),
          SN.str (mixComponent (SN.num 0) (compAt C 1) w),
          SN.str (mixComponent (SN.num 0) (compAt C 2) w)]
        alpha := some (SN.str (mixComponent (SN.num 1)
          (C.alpha.getD (SN.num 1)) w)) } := by
  have h0 : resolveColor parseCssColorM (Sum.inl "#000") =
      some { type := "rgb", components := [SN.num 0, SN.num 0, SN.num 0],
             alpha := none } := by decide
  have hb : rgbFamily ⟨"rgb", [SN.num 0, SN.num 0, SN.num 0], none⟩ = true := by
    decide
  have h2 : resolveColor parseCssColorM (Sum.inr C) = some C := rfl
  unfold shade
  rw [mixColor_some h0 h2 hb hC]
  simp [compAt]

/-- C5: `tint` mixes with white and `shade` with black via `mixColor`; for
RGB-family colors the emitted components put 255 (tint) or 0 (shade) in the
`v1` slot, and under render-time evaluation of the emitted expression weight
0 returns the original component, weight 100 returns the white or black
component, and out-of-range weights extrapolate without clamping. -/
theorem C5_tint_shade_weights (parse : String → Option CSSColorValue)
    (color : String ⊕ CSSColorValue) (w : SN) :
    tint parse color w = mixColor parse (Sum.inl "#fff") color w ∧
    shade parse color w = mixColor parse (Sum.inl "#000") color w ∧
    (∀ C : CSSColorValue, rgbFamily C = true →
      tint parseCssColorM (Sum.inr C) w = some
        { type := "rgb"
          components := [SN.str (mixComponent (SN.num 255) (compAt C 0) w),
            SN.str (mixComponent (SN.num 255) (compAt C 1) w),
            SN.str (mixComponent (SN.num 255) (compAt C 2) w)]
          alpha := some (SN.str (mixComponent (SN.num 1)
            (C.alpha.getD (SN.num 1)) w)) } ∧
      shade parseCssColorM (Sum.inr C) w = some
        { type := "rgb"
          components := [SN.str (mixComponent (SN.num 0) (compAt C 0) w),
            SN.str (mixComponent (SN.num 0) (compAt C 1) w),
            SN.str (mixComponent (SN.num 0) (compAt C 2) w)]
          alpha := some (SN.str (mixComponent (SN.num 1)
            (C.alpha.getD (SN.num 1)) w)) }) ∧
    (∀ a b : ℚ, mixEval a b 0 = b) ∧
    (∀ a b : ℚ, mixEval a b 100 = a) ∧
    mixEval 255 0 200 = 510 ∧
    mixEval 255 0 (-100) = -255 ∧
    (∀ a b c : Int, mixComponent (SN.num a) (SN.num b) (SN.num c) =
      "calc(" ++ toString b ++ " + (" ++ toString a ++ " - " ++ toString b ++
        ") * " ++ toString c ++ " / 100)") := by
  refine ⟨rfl, rfl, ?_, ?_, ?_, ?_, ?_, fun a b c => rfl⟩
  · intro C hC
    exact ⟨tint_shape_M w C hC, shade_shape_M w C hC⟩
  · intro a b
    unfold mixEval
    ring
  · intro a b
    unfold mixEval
    ring
  · unfold mixEval
    norm_num
  · unfold mixEval
    norm_num

/-- Witness for C5: the tint shape and the weight-100 evaluation at a
concrete RGB color. -/
theorem C5_tint_shade_weights_witness :
    tint parseCssColorM
        (Sum.inr { type := "rgb", components := [SN.num 51, SN.num 102, SN.num 153],
                   alpha := none }) (SN.num 100) =
      some { type := "rgb"
             components :=
               [SN.str "calc(51 + (255 - 51) * 100 / 100)",
                SN.str "calc(102 + (255 - 102) * 100 / 100)",
                SN.str "calc(153 + (255 - 153) * 100 / 100)"]
             alpha := some (SN.str "calc(1 + (1 - 1) * 100 / 100)") } ∧
    mixEval 255 51 100 = 255 :=
  ⟨((C5_tint_shade_weights parseCssColorM
        (Sum.inr { type := "rgb", components := [SN.num 51, SN.num 102, SN.num 153],
                   alpha := none }) (SN.num 100)).2.2.1
      { type := "rgb", components := [SN.num 51, SN.num 102, SN.num 153],
        alpha := none } (by decide)).1,
   (C5_tint_shade_weights parseCssColorM
        (Sum.inr { type := "rgb", components := [SN.num 51, SN.num 102, SN.num 153],
                   alpha := none }) (SN.num 100)).2.2.2.2.1 255 51⟩

/-- C3 is refuted as stated: with the single separator `.` configured, the
token `mix-tint-5Z` matches (the unescaped `.` acts as a regex wildcard)
although the text following the digits is `Z`, not the configured separator
string, so matching is not characterized by a verbatim separator. -/
theorem C3_counterexample :
    matchMix ["."] "mix-tint-5Z" =
      some { m0 := "mix-tint-5Z", mode := "tint", weight := "5" } ∧
    ¬ (("mix-tint-5Z").toList.drop 10 =
        (".").toList ++ ("mix-tint-5Z").toList.drop 11) := by
  constructor
  · decide
  · decide

/-- C3 (amended): matching succeeds exactly when the token starts with
`mix-`, a mode literal, `-`, and a signed 1-3 digit weight followed by a
match of the separator alternation under its regex interpretation (the
separators are interpolated unescaped, so `.` matches any character, and an
empty separator list matches the empty string); the consumed prefix is that
literal pattern plus the characters consumed by the separator alternation,
the remainder is the token with the prefix removed, and the three concrete
examples behave as stated. -/
theorem C3_matcher_amended (seps : List String) (token : String) :
    (∀ r, matchMix seps token = some r →
      ValidMode r.mode ∧ ValidWeightChars r.weight.toList ∧
      ∃ suf k, token.toList = ("mix-").toList ++ (r.mode.toList ++ '-' ::
          (r.weight.toList ++ suf)) ∧
        sepAlt seps suf = some k ∧
        r.m0.toList = ("mix-").toList ++ (r.mode.toList ++ '-' ::
          (r.weight.toList ++ suf.take k)) ∧
        sliceFrom token r.m0.length = String.mk (suf.drop k)) ∧
    (∀ mode w suf, ValidMode mode → ValidWeightChars w →
      token.toList = ("mix-").toList ++ (mode.toList ++ '-' :: (w ++ suf)) →
      (sepAlt seps suf).isSome = true → (matchMix seps token).isSome = true) ∧
    matchMix [":", "-"] "mix-shade-30-" =
      some { m0 := "mix-shade-30-", mode := "shade", weight := "30" } ∧
    matchMix [":", "-"] "mix-teal-30-" = none ∧
    matchMix [":", "-"] "mix-shade-3000-" = none := by
  refine ⟨?_, ?_, by decide, by decide, by decide⟩
  · intro r h
    obtain ⟨hm, hw, suf, k, htok, hsep, hkb, hm0, hlen, hslice⟩ := matchMix_sound h
    exact ⟨hm, hw, suf, k, htok, hsep, hm0, hslice⟩
  · intro mode w suf hm hw htok hs
    obtain ⟨ds, hds, h1, h3, hd⟩ := hw
    exact matchMix_complete hm hds h1 h3 hd htok hs

/-- Witness for C3 (amended): the completeness direction applied to a
concrete token and configuration. -/
theorem C3_matcher_amended_witness :
    (matchMix [":", "-"] "mix-shade-30-text").isSome = true :=
  (C3_matcher_amended [":", "-"] "mix-shade-30-text").2.1 "shade" ['3', '0']
    ['-', 't', 'e', 'x', 't'] (Or.inr (Or.inl rfl))
    ⟨['3', '0'], Or.inl rfl, by decide, by decide, by decide⟩
    (by decide) (by decide)

/-- C6 is refuted as stated: an entry whose value is present but falsy (the
empty string) is skipped by the `if (v[1])` guard even though the parser
accepts its text and the mix succeeds, so its value is not replaced by the
serialized mix. -/
theorem C6_counterexample :
    bodyRewrite cexParse colorToStringM "tint" "20" [("color", some (SN.str ""))] =
      some [("color", some (SN.str ""))] ∧
    cexParse ((SN.str "").toStr) =
      some { type := "rgb", components := [SN.num 255, SN.num 255, SN.num 255],
             alpha := none } ∧
    tint cexParse
        (Sum.inr { type := "rgb", components := [SN.num 255, SN.num 255, SN.num 255],
                   alpha := none }) (SN.str "20") =
      some { type := "rgb"
             components :=
               [SN.str "calc(255 + (255 - 255) * 20 / 100)",
                SN.str "calc(255 + (255 - 255) * 20 / 100)",
                SN.str "calc(255 + (255 - 255) * 20 / 100)"]
             alpha := some (SN.str "calc(1 + (1 - 1) * 20 / 100)") } ∧
    SN.str (colorToStringM
      { type := "rgb"
        components :=
          [SN.str "calc(255 + (255 - 255) * 20 / 100)",
           SN.str "calc(255 + (255 - 255) * 20 / 100)",
           SN.str "calc(255 + (255 - 255) * 20 / 100)"]
        alpha := some (SN.str "calc(1 + (1 - 1) * 20 / 100)") }) ≠ SN.str "" := by
  refine ⟨by decide, by decide, by decide, by decide⟩

/-- C6 (amended): for a matched operation (a defined mode lookup) the
rewrite always succeeds and equals an entrywise map of the property list, so
no entry is removed or reordered and every name is unchanged; an entry with
a truthy value is replaced by the serialized mix exactly when both the color
parse and the mix succeed, and in every other case (falsy value, failed
parse, failed mix) the entry is returned unchanged. -/
theorem C6_body_frame_amended (parse : String → Option CSSColorValue)
    (serialize : CSSColorValue → String) (mode weight : String)
    (fn : (String ⊕ CSSColorValue) → SN → Option CSSColorValue)
    (body : List (String × Option SN)) (hf : fns parse mode = some fn) :
    bodyRewrite parse serialize mode weight body =
      some (body.map (entryStep parse serialize fn weight)) ∧
    (body.map (entryStep parse serialize fn weight)).length = body.length ∧
    (∀ v, (entryStep parse serialize fn weight v).1 = v.1) ∧
    (∀ name sn color mixed, snTruthy sn = true → parse sn.toStr = some color →
      fn (Sum.inr color) (SN.str weight) = some mixed →
      entryStep parse serialize fn weight (name, some sn) =
        (name, some (SN.str (serialize mixed)))) ∧
    (∀ name sn, snTruthy sn = true → parse sn.toStr = none →
      entryStep parse serialize fn weight (name, some sn) = (name, some sn)) ∧
    (∀ name sn color, snTruthy sn = true → parse sn.toStr = some color →
      fn (Sum.inr color) (SN.str weight) = none →
      entryStep parse serialize fn weight (name, some sn) = (name, some sn)) ∧
    (∀ name, entryStep parse serialize fn weight (name, none) = (name, none)) ∧
    (∀ name sn, snTruthy sn = false →
      entryStep parse serialize fn weight (name, some sn) = (name, some sn)) := by
  refine ⟨bodyRewrite_of_fn hf body, by simp, entryStep_fst parse serialize fn weight,
    ?_, ?_, ?_, fun name => rfl, ?_⟩
  · intro name sn color mixed ht hp hm
    simp [entryStep, ht, hp, hm]
  · intro name sn ht hp
    simp [entryStep, ht, hp]
  · intro name sn color ht hp hm
    simp [entryStep, ht, hp, hm]
  · intro name sn ht
    simp [entryStep, ht]

/-- Witness for C6 (amended): the rewrite applied to a parseable and an
unparseable entry; the first is replaced, the second passed through. -/
theorem C6_body_frame_amended_witness :
    bodyRewrite parseCssColorM colorToStringM "shade" "20"
        [("color", some (SN.str "#336699")), ("background", some (SN.str "red-500"))] =
      some
        [("color", some (SN.str
          ("rgba(calc(51 + (0 - 51) * 20 / 100),calc(102 + (0 - 102) * 20 / 100)," ++
            "calc(153 + (0 - 153) * 20 / 100),calc(1 + (1 - 1) * 20 / 100))"))),
         ("background", some (SN.str "red-500"))] := by
  have h := (C6_body_frame_amended parseCssColorM colorToStringM "shade" "20"
    (shade parseCssColorM)
    [("color", some (SN.str "#336699")), ("background", some (SN.str "red-500"))]
    rfl).1
  rw [h]
  decide

/-- C7 is refuted as stated: the separators are joined into the pattern
without escaping, so a configured `.` separator behaves as the regex
wildcard and `mix-shade-30X` matches although the character after the
digits is `X`, not the literal separator text. -/
theorem C7_counterexample :
    matchMix ["."] "mix-shade-30X" =
      some { m0 := "mix-shade-30X", mode := "shade", weight := "30" } ∧
    ¬ (("mix-shade-30X").toList.drop 12 =
        (".").toList ++ ("mix-shade-30X").toList.drop 13) := by
  constructor
  · decide
  · decide

/-- C7 (amended): separators are interpolated unescaped and matched under
their regex interpretation; for a nonempty configuration whose separators
contain no wildcard character the literal reading is recovered — every match
consumes the weight digits followed by exactly one configured separator
verbatim. -/
theorem C7_sep_literal_amended (seps : List String) (token : String) (r : MixMatch)
    (hne : seps ≠ []) (hplain : ∀ sep ∈ seps, ∀ c ∈ sep.toList, c ≠ '.')
    (h : matchMix seps token = some r) :
    ∃ sep ∈ seps, ∃ suf2,
      token.toList = ("mix-").toList ++ (r.mode.toList ++ '-' ::
        (r.weight.toList ++ (sep.toList ++ suf2))) ∧
      r.m0.toList = ("mix-").toList ++ (r.mode.toList ++ '-' ::
        (r.weight.toList ++ sep.toList)) := by
  obtain ⟨hm, hw, suf, k, htok, hsep, hkb, hm0, hlen, hslice⟩ := matchMix_sound h
  obtain ⟨sep, hmem, hfrag⟩ := sepAlt_mem hne hsep
  have htake : suf.take k = sep.toList := fragMatch_plain (hplain sep hmem) hfrag
  have hsuf : suf = sep.toList ++ suf.drop k := by
    conv_lhs => rw [← List.take_append_drop k suf]
    rw [htake]
  refine ⟨sep, hmem, suf.drop k, ?_, ?_⟩
  · rw [← hsuf]
    exact htok
  · rw [hm0, htake]

/-- Witness for C7 (amended): a literal separator configuration at a
concrete token. -/
theorem C7_sep_literal_amended_witness :
    ∃ sep ∈ ["-"], ∃ suf2,
      ("mix-tint-5-x").toList = ("mix-").toList ++ (("tint").toList ++ '-' ::
        (("5").toList ++ (sep.toList ++ suf2))) ∧
      ("mix-tint-5-").toList = ("mix-").toList ++ (("tint").toList ++ '-' ::
        (("5").toList ++ sep.toList)) :=
  C7_sep_literal_amended ["-"] "mix-tint-5-x"
    { m0 := "mix-tint-5-", mode := "tint", weight := "5" }
    (by decide) (by decide) (by decide)

/-- C8 is refuted as stated: the pattern compiled on the first call is
reused by a later call on the same rule instance even when that call's
context carries a different separator configuration, so the later call's
result differs from the result a fresh instance would give for the same
token and configuration. -/
theorem C8_counterexample :
    (matchStateful (matchStateful none "mix-tint-5:x" [":"]).1 "mix-shade-30-x"
        ["-"]).2 ≠
      (matchStateful none "mix-shade-30-x" ["-"]).2 := by
  decide

/-- C8 (amended): a call's result is determined by the token together with
the cached configuration when one exists: the first call compiles the
pattern from its own context's separators and stores it, and every later
call reuses the stored pattern regardless of its own context. -/
theorem C8_cache_amended (token : String) (seps cached : List String) :
    matchStateful none token seps = (some seps, matchMix seps token) ∧
    matchStateful (some cached) token seps =
      (some cached, matchMix cached token) :=
  ⟨rfl, rfl⟩

/-- C9: every token accepted by the matcher captures a mode among the three
alternatives of the mode group, the `fns` lookup on that mode is always
defined, and the body rewrite therefore never reaches the
undefined-function branch for any property list. -/
theorem C9_fns_total (parse : String → Option CSSColorValue)
    (serialize : CSSColorValue → String) (seps : List String) (token : String)
    (r : MixMatch) (body : List (String × Option SN))
    (h : matchMix seps token = some r) :
    ValidMode r.mode ∧ (fns parse r.mode).isSome = true ∧
    (bodyRewrite parse serialize r.mode r.weight body).isSome = true := by
  have hm := (matchMix_sound h).1
  refine ⟨hm, fns_of_valid parse hm, ?_⟩
  rcases hv : fns parse r.mode with _ | fn
  · have hsome := fns_of_valid parse hm
    rw [hv] at hsome
    simp at hsome
  · rw [bodyRewrite_of_fn hv body]
    rfl

/-- Witness for C9: the matched token `mix-shade-30-` with a small body. -/
theorem C9_fns_total_witness :
    ValidMode "shade" ∧ (fns parseCssColorM "shade").isSome = true ∧
    (bodyRewrite parseCssColorM colorToStringM "shade" "30"
      [("color", some (SN.str "#fff"))]).isSome = true :=
  C9_fns_total parseCssColorM colorToStringM [":", "-"] "mix-shade-30-"
    { m0 := "mix-shade-30-", mode := "shade", weight := "30" }
    [("color", some (SN.str "#fff"))] (by decide)

theorem rewriteEntry_falsy {parse : String → Option CSSColorValue}
    {serialize : CSSColorValue → String} {mode weight : String}
    {v : String × Option SN} (hv : snFalsy v.2 = true) :
    rewriteEntry parse serialize mode weight v = some v := by
  rcases v with ⟨name, _ | sn⟩
  · rfl
  · have ht : snTruthy sn = false := by
      simpa [snFalsy] using hv
    simp [rewriteEntry, ht]

theorem mapOpt_congr_id {f : α → Option α} {l : List α}
    (h : ∀ u ∈ l, f u = some u) : mapOpt f l = some l := by
  induction l with
  | nil => rfl
  | cons x xs ih =>
    simp [mapOpt, h x (by simp), ih fun u hu => h u (by simp [hu])]

/-- C10: an entry whose value is falsy (absent, empty string, or the number
zero) is skipped entirely: it is returned unchanged, the result does not
depend on the parser or serializer at all, and a body consisting of falsy
entries is returned verbatim. -/
theorem C10_falsy_skip (parse parse2 : String → Option CSSColorValue)
    (serialize serialize2 : CSSColorValue → String) (mode weight : String)
    (v : String × Option SN) (hv : snFalsy v.2 = true) :
    rewriteEntry parse serialize mode weight v = some v ∧
    rewriteEntry parse serialize mode weight v =
      rewriteEntry parse2 serialize2 mode weight v ∧
    (∀ body : List (String × Option SN), (∀ u ∈ body, snFalsy u.2 = true) →
      bodyRewrite parse serialize mode weight body = some body) := by
  refine ⟨rewriteEntry_falsy hv, ?_, ?_⟩
  · rw [rewriteEntry_falsy hv, rewriteEntry_falsy hv]
  · intro body hb
    exact mapOpt_congr_id fun u hu => rewriteEntry_falsy (hb u hu)

/-- Witness for C10: the empty-string and zero values at a parser that
accepts their texts. -/
theorem C10_falsy_skip_witness :
    rewriteEntry cexParse colorToStringM "tint" "30" ("color", some (SN.str "")) =
      some ("color", some (SN.str "")) ∧
    rewriteEntry parseCssColorM colorToStringM "tint" "30" ("opacity", some (SN.num 0)) =
      some ("opacity", some (SN.num 0)) :=
  ⟨(C10_falsy_skip cexParse cexParse colorToStringM colorToStringM "tint" "30"
      ("color", some (SN.str "")) (by decide)).1,
   (C10_falsy_skip parseCssColorM parseCssColorM colorToStringM colorToStringM "tint"
      "30" ("opacity", some (SN.num 0)) (by decide)).1⟩
